import Mathlib

/-!
Shallow embedding of the snake-game simulation core from `src/main.rs`
(a Bevy application).  Pure game logic — grid positions, the direction
state machine, the movement step, the eating check, growth bookkeeping
and the round reset — is translated into executable Lean definitions;
the per-frame systems are modelled as functions on an explicit `World`
record, and the frame loop as a small-step relation.
-/

namespace Snake

/-- Grid coordinates (`struct Position { x: i32, y: i32 }` in the source).
The source's `i32` is modelled as `Int`; no arithmetic in the program
approaches the 32-bit range (coordinates stay within one step of the
10×10 arena), so overflow cannot occur and plain `Int` is faithful. -/
structure Position where
  x : Int
  y : Int
deriving DecidableEq, Repr

/-- Source `enum Direction { Left, Up, Right, Down }`. -/
inductive Direction where
  | Left
  | Up
  | Right
  | Down
deriving DecidableEq, Repr

/-- Source `Direction::opposite`. -/
def Direction.opposite : Direction → Direction
  | .Left => .Right
  | .Right => .Left
  | .Up => .Down
  | .Down => .Up

/-- Source `ARENA_WIDTH: u32 = 10`, used in `i32` comparisons after a cast. -/
def ARENA_WIDTH : Int := 10

/-- Source `ARENA_HEIGHT: u32 = 10`. -/
def ARENA_HEIGHT : Int := 10

/-- The bounds test of `snake_movement` (lines 166–170):
`x < 0 || y < 0 || x as u32 >= ARENA_WIDTH || y as u32 >= ARENA_HEIGHT`.
The `as u32` casts are evaluated only when the earlier `x < 0` / `y < 0`
disjuncts are false (Rust `||` short-circuits), so on the values that
reach them the cast is the identity and the whole condition is the plain
integer condition written here. -/
def outOfBounds (p : Position) : Bool :=
  p.x < 0 || p.y < 0 || p.x ≥ ARENA_WIDTH || p.y ≥ ARENA_HEIGHT

/-- The head-advance `match` of `snake_movement` (lines 159–164):
`Left => x -= 1, Up => y += 1, Right => x += 1, Down => y -= 1`. -/
def stepPosition : Direction → Position → Position
  | .Left, p => { p with x := p.x - 1 }
  | .Up, p => { p with y := p.y + 1 }
  | .Right, p => { p with x := p.x + 1 }
  | .Down, p => { p with y := p.y - 1 }

/-- Componentwise addition of grid vectors.  Spec-side notion, used to
compare `stepPosition` with the spec's `prev[0] + unit_vector(d)`. -/
def Position.add (p q : Position) : Position :=
  { x := p.x + q.x, y := p.y + q.y }

/-- Modelled from the spec: the unit-vector table
`Left:(-1,0) Up:(0,1) Right:(1,0) Down:(0,-1)` of §4.2.  The source has
no such table (it mutates coordinates in place); this definition exists
only to state the refinement between the two formulations. -/
def unitVector : Direction → Position
  | .Left => ⟨-1, 0⟩
  | .Up => ⟨0, 1⟩
  | .Right => ⟨1, 0⟩
  | .Down => ⟨0, -1⟩

/-- Result of one invocation of `snake_movement` on the chain: the new
chain of positions (head first), the recorded `LastTailPosition`, and
whether a `GameOverEvent` was sent during the invocation. -/
structure MoveResult where
  positions : List Position
  lastTail : Position
  gameOver : Bool
deriving DecidableEq, Repr

/-- Function `snake_movement` (lines 137–186) as a function of the current
heading and the pre-move chain of segment positions (head first).
Mirrors the source: snapshot `segment_positions` = `prev`; advance the
head in place; send a game-over event if the new head is out of bounds;
send one if the snapshot contains the new head; then each segment at
chain index `i ≥ 1` receives `prev[i-1]` (the `zip` with
`segments.iter().skip(1)` makes the new chain `newHead ::
prev.dropLast`); finally `LastTailPosition := prev.last`.  The source
`unwrap`s the last element, so an empty chain (impossible in the
running game) is modelled as `none` (panic). -/
def snake_movement (dir : Direction) (prev : List Position) : Option MoveResult :=
  match prev with
  | [] => none
  | p :: rest =>
    let newHead := stepPosition dir p
    let oob := outOfBounds newHead
    let selfHit := decide (newHead ∈ p :: rest)
    some { positions := newHead :: (p :: rest).dropLast
           lastTail := (p :: rest).getLast (List.cons_ne_nil p rest)
           gameOver := oob || selfHit }

/-- The set of direction keys held this frame, as sampled by
`snake_movement_input` via `keyboard_input.pressed`. -/
structure KeysPressed where
  left : Bool
  down : Bool
  up : Bool
  right : Bool
deriving DecidableEq, Repr

/-- The key-priority `if` chain of `snake_movement_input`
(lines 203–213): Left, else Down, else Up, else Right, else keep the
current heading. -/
def direction_input (keys : KeysPressed) (current : Direction) : Direction :=
  if keys.left then .Left
  else if keys.down then .Down
  else if keys.up then .Up
  else if keys.right then .Right
  else current

/-- Function `snake_movement_input` (lines 188–218) as a function on the heading:
adopt the requested direction unless it is the opposite of the current
one. -/
def snake_movement_input (keys : KeysPressed) (current : Direction) : Direction :=
  let requested := direction_input keys current
  if requested ≠ current.opposite then requested else current

/-- The heading after a sequence of input frames (one
`snake_movement_input` call per frame), starting from heading `c`. -/
def inputFold (c : Direction) (ks : List KeysPressed) : Direction :=
  ks.foldl (fun cur k => snake_movement_input k cur) c

/-- Function `snake_eating` (lines 289–303) restricted to one head position:
scan the food list; every food equal to the head is despawned and sends
one `GrowthEvent`.  Returns the surviving foods (in order) and the
number of growth events sent. -/
def snake_eating (head : Position) : List Position → List Position × Nat
  | [] => ([], 0)
  | f :: rest =>
    let r := snake_eating head rest
    if f = head then (r.1, r.2 + 1) else (f :: r.1, r.2)

/-- The simulation state shared by the systems: the chain of segment
positions head first (the `SnakeSegments` entity list joined with each
entity's `Position`; the `SnakeHead`'s `direction` is `direction`),
the `LastTailPosition` resource, the positions of live `Food` entities,
and the pending `GameOverEvent` / `GrowthEvent` queues (a game-over is
consumed as mere presence, so a `Bool`; growth events are consumed one
per run, so a count). -/
structure World where
  segments : List Position
  direction : Direction
  lastTail : Option Position
  foods : List Position
  gameOverPending : Bool
  growthPending : Nat
deriving DecidableEq, Repr

/-- The state set up by `main` + `spawn_snake` (lines 112–117, 266–287):
head at `(3,3)` heading `Up`, one body segment at `(3,2)`,
`LastTailPosition(None)`, no food, no pending events. -/
def spawnWorld : World :=
  { segments := [⟨3, 3⟩, ⟨3, 2⟩]
    direction := .Up
    lastTail := none
    foods := []
    gameOverPending := false
    growthPending := 0 }

/-- System `snake_movement` run on a frame.  `headCount` is the number
of entities matched by the `Query<(Entity, &SnakeHead)>`; when it is
not exactly one, `get_single()` returns `Err` and the system returns
early (lines 144–150) leaving the world untouched.  Otherwise the chain
is advanced and the game-over flag accumulates any event sent.  `none`
models the `unwrap` panic on an empty chain. -/
def snake_movement_system (headCount : Nat) (w : World) : Option World :=
  if headCount = 1 then
    match snake_movement w.direction w.segments with
    | none => none
    | some r =>
      some { w with
              segments := r.positions
              lastTail := some r.lastTail
              gameOverPending := w.gameOverPending || r.gameOver }
  else
    some w

/-- System `snake_movement_input` run on a frame; `headCount` plays the
same role as in `snake_movement_system` (lines 192–201: on a
`get_single_mut` error the system returns early). -/
def snake_movement_input_system (headCount : Nat) (keys : KeysPressed) (w : World) : World :=
  if headCount = 1 then
    { w with direction := snake_movement_input keys w.direction }
  else
    w

/-- System `snake_eating` run on a frame: the head position is the
position of the first chain entry (the head entity); matched foods are
despawned and their growth events enqueued.  With no head entity the
`for` loop over head positions does nothing. -/
def snake_eating_system (w : World) : World :=
  match w.segments with
  | [] => w
  | h :: _ =>
    let r := snake_eating h w.foods
    { w with foods := r.1, growthPending := w.growthPending + r.2 }

/-- System `snake_growth` (lines 305–316): if at least one `GrowthEvent` is
pending, consume one and append a segment at
`last_tail_position.0.unwrap()`; the `unwrap` of a `None`
`LastTailPosition` is a panic, modelled as `none`. -/
def snake_growth (w : World) : Option World :=
  if 0 < w.growthPending then
    match w.lastTail with
    | none => none
    | some t =>
      some { w with
              segments := w.segments ++ [t]
              growthPending := w.growthPending - 1 }
  else
    some w

/-- System `game_over` (lines 318–337): when a `GameOverEvent` is pending,
despawn every food, despawn every segment, and re-run `spawn_snake`
(head `(3,3)` heading `Up`, body `(3,2)`).  The `LastTailPosition`
resource and any pending growth events are not touched. -/
def game_over (w : World) : World :=
  if w.gameOverPending then
    { segments := [⟨3, 3⟩, ⟨3, 2⟩]
      direction := .Up
      lastTail := w.lastTail
      foods := []
      gameOverPending := false
      growthPending := w.growthPending }
  else
    w

/-- The food spawner picks `((random*WIDTH) as i32, (random*HEIGHT) as i32)`
with `random ∈ [0,1)`, i.e. an arbitrary in-grid cell. -/
def inGrid (p : Position) : Bool :=
  0 ≤ p.x && p.x < ARENA_WIDTH && 0 ≤ p.y && p.y < ARENA_HEIGHT

/-- One scheduler-visible step of the running game: an input frame, a
movement tick, an eating check, a growth consumption, a round-reset
run, or a food spawn (at an arbitrary in-grid cell, as the spawner does
not avoid overlap).  `headCount = 1` throughout: the running game has
exactly one head entity. -/
inductive Step : World → World → Prop
  | input (keys : KeysPressed) (w : World) :
      Step w (snake_movement_input_system 1 keys w)
  | move (w w' : World) :
      snake_movement_system 1 w = some w' → Step w w'
  | eat (w : World) :
      Step w (snake_eating_system w)
  | grow (w w' : World) :
      snake_growth w = some w' → Step w w'
  | reset (w : World) :
      Step w (game_over w)
  | spawnFood (p : Position) (w : World) :
      inGrid p = true → Step w { w with foods := p :: w.foods }

/-- States reachable from a given state by the game's steps. -/
def Reachable : World → World → Prop :=
  Relation.ReflTransGen Step

/-- The game's steps with a freshness discipline on `LastTailPosition`:
the `Bool` component records whether the stored tail position was
written by a movement tick after the latest growth consumption and the
latest reset.  An event-consuming growth run is allowed only on a fresh
tail and spends the freshness; a movement tick restores it; a reset run
clears it (the resource keeps its stale pre-reset value). -/
inductive SafeStep : World × Bool → World × Bool → Prop
  | input (keys : KeysPressed) (w : World) (f : Bool) :
      SafeStep (w, f) (snake_movement_input_system 1 keys w, f)
  | move (w w' : World) (f : Bool) :
      snake_movement_system 1 w = some w' → SafeStep (w, f) (w', true)
  | eat (w : World) (f : Bool) :
      SafeStep (w, f) (snake_eating_system w, f)
  | grow (w w' : World) :
      0 < w.growthPending → snake_growth w = some w' → SafeStep (w, true) (w', false)
  | reset (w : World) (f : Bool) :
      SafeStep (w, f) (game_over w, false)
  | spawnFood (p : Position) (w : World) (f : Bool) :
      inGrid p = true → SafeStep (w, f) ({ w with foods := p :: w.foods }, f)

/-- States reachable under the tail-freshness discipline. -/
def SafeReachable : World × Bool → World × Bool → Prop :=
  Relation.ReflTransGen SafeStep

/-- Invariant carried through `SafeStep`: while no game-over signal is
pending, the chain is nonempty and duplicate-free, and when the tail
record is fresh it points to a cell outside the chain. -/
def AliveInv : World × Bool → Prop := fun s =>
  s.1.gameOverPending = false →
    s.1.segments ≠ [] ∧ s.1.segments.Nodup ∧
    (s.2 = true → ∃ t, s.1.lastTail = some t ∧ t ∉ s.1.segments)

/-- One accepted growth signal: a `snake_growth` run that actually
consumes a pending event (`none` also when no event is pending, so that
iterating this counts exactly the accepted signals). -/
def acceptedGrowth (w : World) : Option World :=
  if 0 < w.growthPending then snake_growth w else none

/-- Iterate `acceptedGrowth`: `n` consecutive accepted growth signals. -/
def growthSteps : Nat → World → Option World
  | 0, w => some w
  | n + 1, w =>
    match acceptedGrowth w with
    | none => none
    | some w' => growthSteps n w'

/-! ## Theorems -/

/-- C5: for every call to the direction-input operation with current
heading `c`, the requested direction is chosen from the held keys by
the fixed priority Left > Down > Up > Right (first held key wins; if
none is held the heading is kept), and the requested direction is
adopted as the new heading exactly when it is not the opposite of `c`;
otherwise `c` is retained. -/
theorem snake_movement_input_spec (k : KeysPressed) (c : Direction) :
    (k.left = true → direction_input k c = .Left) ∧
    (k.left = false → k.down = true → direction_input k c = .Down) ∧
    (k.left = false → k.down = false → k.up = true → direction_input k c = .Up) ∧
    (k.left = false → k.down = false → k.up = false → k.right = true →
      direction_input k c = .Right) ∧
    (k.left = false → k.down = false → k.up = false → k.right = false →
      direction_input k c = c) ∧
    (direction_input k c ≠ c.opposite → snake_movement_input k c = direction_input k c) ∧
    (direction_input k c = c.opposite → snake_movement_input k c = c) := by
  obtain ⟨l, d, u, r⟩ := k
  cases l <;> cases d <;> cases u <;> cases r <;> cases c <;>
    exact ⟨by decide, by decide, by decide, by decide, by decide, by decide, by decide⟩

/-- Witness for C5 at a concrete input: with Left and Down both held
and heading Up, the priority picks Left, which is not Down's opposite,
so it is adopted. -/
theorem snake_movement_input_spec_witness :
    direction_input ⟨true, true, false, false⟩ .Up = .Left ∧
    snake_movement_input ⟨true, true, false, false⟩ .Up = .Left := by
  have h := snake_movement_input_spec ⟨true, true, false, false⟩ .Up
  exact ⟨h.1 rfl, (h.2.2.2.2.2.1 (by decide)).trans (h.1 rfl)⟩

/-- C1 (amended): a single `snake_movement_input` frame never turns the
heading into the opposite of the heading it started from, so the
direction at a movement tick is never the opposite of the direction at
the immediately preceding tick when at most one input frame ran between
them.  (With two or more input frames the property fails, see the
counterexample.) -/
theorem no_reversal_single_input_frame (c : Direction) (ks : List KeysPressed)
    (h : ks.length ≤ 1) : inputFold c ks ≠ c.opposite := by
  match ks with
  | [] => cases c <;> decide
  | [k] =>
    obtain ⟨l, d, u, r⟩ := k
    cases l <;> cases d <;> cases u <;> cases r <;> cases c <;> decide
  | k1 :: k2 :: rest => simp at h

/-- Witness for C1 (amended): heading Up with one frame holding Down
keeps the heading away from Down. -/
theorem no_reversal_single_input_frame_witness :
    ([(⟨false, true, false, false⟩ : KeysPressed)]).length ≤ 1 ∧
    inputFold .Up [⟨false, true, false, false⟩] ≠ Direction.Up.opposite :=
  ⟨by decide, no_reversal_single_input_frame .Up [⟨false, true, false, false⟩] (by decide)⟩

/-- Counterexample to C1 as stated: with two input frames between two
movement ticks (the input system runs every frame, the movement tick
only every 150 ms), heading Up becomes Left and then Down — the exact
opposite of the heading in effect at the earlier tick. -/
theorem reversal_after_two_input_frames :
    inputFold .Up [⟨true, false, false, false⟩, ⟨false, true, false, false⟩] =
      Direction.Up.opposite := by
  decide

/-- C8: the eating check keeps exactly the foods whose position differs
from the head and raises one growth signal per food lying on the head
(stacked foods each raise their own signal). -/
theorem snake_eating_spec (h : Position) (fs : List Position) :
    (snake_eating h fs).1 = fs.filter (fun f => decide (f ≠ h)) ∧
    (snake_eating h fs).2 = fs.countP (fun f => decide (f = h)) := by
  induction fs with
  | nil => exact ⟨rfl, rfl⟩
  | cons f rest ih =>
    by_cases hf : f = h <;>
      simp [snake_eating, hf, List.filter_cons, List.countP_cons, ih.1, ih.2]

/-- C10: `snake_growth` panics (the `unwrap` of `LastTailPosition`)
exactly when it consumes a pending growth signal while
`LastTailPosition` is `None`; and `None` is indeed the initial value of
the resource before any movement tick. -/
theorem snake_growth_panic_iff :
    (∀ w : World, snake_growth w = none ↔ 0 < w.growthPending ∧ w.lastTail = none) ∧
    spawnWorld.lastTail = none := by
  refine ⟨fun w => ?_, rfl⟩
  unfold snake_growth
  by_cases hp : 0 < w.growthPending
  · cases h : w.lastTail <;> simp [hp, h]
  · simp [hp]

/-- Witness for C10: a world with one pending growth signal and an
unset `LastTailPosition` panics. -/
theorem snake_growth_panic_iff_witness :
    snake_growth ⟨[⟨3, 3⟩, ⟨3, 2⟩], .Up, none, [], false, 1⟩ = none :=
  (snake_growth_panic_iff.1 ⟨[⟨3, 3⟩, ⟨3, 2⟩], .Up, none, [], false, 1⟩).mpr
    ⟨by decide, rfl⟩

/-- C6: consuming a pending game-over signal destroys every food and
every segment and recreates the canonical starting state (exactly two
segments, head `(3,3)`, body `(3,2)`, heading `Up`, zero food), and the
round-reset system is idempotent: running it again with no intervening
signal changes nothing. -/
theorem game_over_reset_spec :
    (∀ w : World, w.gameOverPending = true →
      (game_over w).segments = [⟨3, 3⟩, ⟨3, 2⟩] ∧
      (game_over w).segments.length = 2 ∧
      (game_over w).direction = .Up ∧
      (game_over w).foods = []) ∧
    (∀ w : World, game_over (game_over w) = game_over w) := by
  constructor
  · intro w h
    simp [game_over, h]
  · intro w
    by_cases h : w.gameOverPending
    · simp [game_over, h]
    · simp [game_over, h]

/-- Witness for C6: a mid-game world with a pending game-over signal is
reset to the canonical starting state. -/
theorem game_over_reset_spec_witness :
    (game_over ⟨[⟨5, 5⟩, ⟨5, 4⟩, ⟨5, 3⟩], .Right, some ⟨5, 2⟩, [⟨2, 2⟩], true, 1⟩).segments =
      [⟨3, 3⟩, ⟨3, 2⟩] ∧
    (game_over ⟨[⟨5, 5⟩, ⟨5, 4⟩, ⟨5, 3⟩], .Right, some ⟨5, 2⟩, [⟨2, 2⟩], true, 1⟩).segments.length = 2 ∧
    (game_over ⟨[⟨5, 5⟩, ⟨5, 4⟩, ⟨5, 3⟩], .Right, some ⟨5, 2⟩, [⟨2, 2⟩], true, 1⟩).direction = .Up ∧
    (game_over ⟨[⟨5, 5⟩, ⟨5, 4⟩, ⟨5, 3⟩], .Right, some ⟨5, 2⟩, [⟨2, 2⟩], true, 1⟩).foods = [] :=
  game_over_reset_spec.1 ⟨[⟨5, 5⟩, ⟨5, 4⟩, ⟨5, 3⟩], .Right, some ⟨5, 2⟩, [⟨2, 2⟩], true, 1⟩ rfl

/-- C9: when the head query does not match exactly one entity,
`snake_movement` and `snake_movement_input` return early without
panicking (`some`/total result) and leave every piece of simulation
state — segments, heading, `LastTailPosition`, foods and pending
signals — unchanged. -/
theorem missing_head_early_return (hc : Nat) (keys : KeysPressed) (w : World)
    (h : hc ≠ 1) :
    snake_movement_system hc w = some w ∧
    snake_movement_input_system hc keys w = w := by
  constructor
  · simp [snake_movement_system, h]
  · simp [snake_movement_input_system, h]

/-- Witness for C9: with zero head entities both systems leave the
spawn state untouched. -/
theorem missing_head_early_return_witness :
    snake_movement_system 0 spawnWorld = some spawnWorld ∧
    snake_movement_input_system 0 ⟨false, false, false, false⟩ spawnWorld = spawnWorld :=
  missing_head_early_return 0 ⟨false, false, false, false⟩ spawnWorld (by decide)

/-- Auxiliary: each accepted growth signal grows the chain by one. -/
theorem growthSteps_length (n : Nat) :
    ∀ w w' : World, growthSteps n w = some w' →
      w'.segments.length = w.segments.length + n := by
  induction n with
  | zero =>
    intro w w' h
    simp [growthSteps] at h
    subst h
    rfl
  | succ n ih =>
    intro w w' h
    unfold growthSteps at h
    cases ha : acceptedGrowth w with
    | none => rw [ha] at h; cases h
    | some w1 =>
      rw [ha] at h
      have h1 : w1.segments.length = w.segments.length + 1 := by
        unfold acceptedGrowth at ha
        by_cases hp : 0 < w.growthPending
        · rw [if_pos hp] at ha
          unfold snake_growth at ha
          rw [if_pos hp] at ha
          cases ht : w.lastTail with
          | none => rw [ht] at ha; cases ha
          | some t =>
            rw [ht] at ha
            injection ha with ha
            subst ha
            simp
        · rw [if_neg hp] at ha; cases ha
      have h2 := ih w1 w' h
      omega

/-- C7: a consumed growth signal appends exactly one segment, at the
end of the chain, at the recorded `LastTailPosition`; consequently
after exactly `n` accepted growth signals on the two-segment chain
produced by a reset, the segment count is `2 + n`. -/
theorem snake_growth_spec :
    (∀ w w' : World, 0 < w.growthPending → snake_growth w = some w' →
      ∃ t, w.lastTail = some t ∧ w'.segments = w.segments ++ [t]) ∧
    (∀ (n : Nat) (w w' : World), w.segments.length = 2 →
      growthSteps n w = some w' → w'.segments.length = 2 + n) := by
  constructor
  · intro w w' hp h
    unfold snake_growth at h
    rw [if_pos hp] at h
    cases ht : w.lastTail with
    | none => rw [ht] at h; cases h
    | some t =>
      rw [ht] at h
      injection h with h
      subst h
      exact ⟨t, rfl, rfl⟩
  · intro n w w' h2 h
    have := growthSteps_length n w w' h
    omega

/-- Witness for C7: two stacked growth signals on the spawn-length
chain with a recorded tail position yield a four-segment chain, and a
single consumption appends the recorded tail position at the end. -/
theorem snake_growth_spec_witness :
    (⟨[⟨3, 3⟩, ⟨3, 2⟩, ⟨9, 9⟩, ⟨9, 9⟩], .Up, some ⟨9, 9⟩, [], false, 0⟩ : World).segments.length =
      2 + 2 ∧
    (∃ t, (⟨[⟨3, 3⟩, ⟨3, 2⟩], .Up, some ⟨9, 9⟩, [], false, 2⟩ : World).lastTail = some t ∧
      (⟨[⟨3, 3⟩, ⟨3, 2⟩, ⟨9, 9⟩], .Up, some ⟨9, 9⟩, [], false, 1⟩ : World).segments =
        (⟨[⟨3, 3⟩, ⟨3, 2⟩], .Up, some ⟨9, 9⟩, [], false, 2⟩ : World).segments ++ [t]) :=
  ⟨snake_growth_spec.2 2 ⟨[⟨3, 3⟩, ⟨3, 2⟩], .Up, some ⟨9, 9⟩, [], false, 2⟩
      ⟨[⟨3, 3⟩, ⟨3, 2⟩, ⟨9, 9⟩, ⟨9, 9⟩], .Up, some ⟨9, 9⟩, [], false, 0⟩ rfl (by decide),
    snake_growth_spec.1 ⟨[⟨3, 3⟩, ⟨3, 2⟩], .Up, some ⟨9, 9⟩, [], false, 2⟩
      ⟨[⟨3, 3⟩, ⟨3, 2⟩, ⟨9, 9⟩], .Up, some ⟨9, 9⟩, [], false, 1⟩ (by decide) (by decide)⟩

/-- Unfolding equation of `snake_movement` on a nonempty chain. -/
theorem snake_movement_cons (d : Direction) (p : Position) (rest : List Position) :
    snake_movement d (p :: rest) =
      some { positions := stepPosition d p :: (p :: rest).dropLast
             lastTail := (p :: rest).getLast (List.cons_ne_nil p rest)
             gameOver := outOfBounds (stepPosition d p) ||
               decide (stepPosition d p ∈ p :: rest) } := rfl

/-- Refinement between the source's in-place coordinate mutation and
the spec's `prev[0] + unit_vector(d)` formulation. -/
theorem stepPosition_eq_add (d : Direction) (p : Position) :
    stepPosition d p = p.add (unitVector d) := by
  cases d <;> simp [stepPosition, Position.add, unitVector] <;> omega

/-- C2: a movement step sends the head to `prev[0] + unit_vector(d)`,
sends every body segment at chain index `i ≥ 1` to `prev[i-1]`, and
records `LastTailPosition = prev[last index]`. -/
theorem snake_movement_step_spec (d : Direction) (prev : List Position) (res : MoveResult)
    (hm : snake_movement d prev = some res) :
    res.positions.head? = prev.head?.map (fun p => p.add (unitVector d)) ∧
    (∀ i : Nat, 1 ≤ i → i < prev.length → res.positions.get? i = prev.get? (i - 1)) ∧
    prev.getLast? = some res.lastTail := by
  cases prev with
  | nil => cases hm
  | cons p rest =>
    rw [snake_movement_cons] at hm
    injection hm with hm
    subst hm
    refine ⟨?_, ?_, ?_⟩
    · simp [stepPosition_eq_add]
    · intro i h1 h2
      obtain ⟨j, rfl⟩ : ∃ j, i = j + 1 := ⟨i - 1, by omega⟩
      have e1 : (stepPosition d p :: (p :: rest).dropLast).get? (j + 1)
          = ((p :: rest).dropLast).get? j := rfl
      have e2 : ((p :: rest).dropLast).get? j = (p :: rest).get? j := by
        rw [List.dropLast_eq_take]
        refine List.get?_take ?_
        simp only [List.length_cons] at h2 ⊢
        omega
      rw [e1, e2, Nat.add_sub_cancel]
    · exact List.getLast?_eq_getLast_of_ne_nil (List.cons_ne_nil p rest)

/-- Witness for C2: the spec's end-to-end scenario 1 — head `(5,5)`
heading Right moves to `(6,5)`, the body segment takes `(5,5)`, the
vacated tail cell `(4,5)` is recorded. -/
theorem snake_movement_step_spec_witness :
    (⟨[⟨6, 5⟩, ⟨5, 5⟩], ⟨4, 5⟩, false⟩ : MoveResult).positions.head? =
      ([⟨5, 5⟩, ⟨4, 5⟩] : List Position).head?.map (fun p => p.add (unitVector .Right)) ∧
    (∀ i : Nat, 1 ≤ i → i < ([⟨5, 5⟩, ⟨4, 5⟩] : List Position).length →
      (⟨[⟨6, 5⟩, ⟨5, 5⟩], ⟨4, 5⟩, false⟩ : MoveResult).positions.get? i =
        ([⟨5, 5⟩, ⟨4, 5⟩] : List Position).get? (i - 1)) ∧
    ([⟨5, 5⟩, ⟨4, 5⟩] : List Position).getLast? =
      some (⟨[⟨6, 5⟩, ⟨5, 5⟩], ⟨4, 5⟩, false⟩ : MoveResult).lastTail :=
  snake_movement_step_spec .Right [⟨5, 5⟩, ⟨4, 5⟩] ⟨[⟨6, 5⟩, ⟨5, 5⟩], ⟨4, 5⟩, false⟩ (by decide)

/-- C3: a movement step raises a game-over signal exactly when the new
head is out of bounds or coincides with an element of the pre-move
snapshot of segment positions, and the movement commit (new chain and
recorded tail) proceeds in either case. -/
theorem snake_movement_gameover_spec (d : Direction) (prev : List Position)
    (res : MoveResult) (p0 : Position)
    (hm : snake_movement d prev = some res) (hh : prev.head? = some p0) :
    (res.gameOver = true ↔
      (outOfBounds (stepPosition d p0) = true ∨ stepPosition d p0 ∈ prev)) ∧
    res.positions = stepPosition d p0 :: prev.dropLast ∧
    prev.getLast? = some res.lastTail := by
  cases prev with
  | nil => cases hm
  | cons p rest =>
    have hp : p = p0 := by simpa using hh
    subst hp
    rw [snake_movement_cons] at hm
    injection hm with hm
    subst hm
    refine ⟨?_, rfl, ?_⟩
    · simp [Bool.or_eq_true, decide_eq_true_iff]
    · exact List.getLast?_eq_getLast_of_ne_nil (List.cons_ne_nil p rest)

/-- Witness for C3: the spec's end-to-end scenario 2 — head `(9,5)`
heading Right on the 10-wide grid computes `(10,5)`, which is out of
bounds, so the signal is raised while the commit still proceeds. -/
theorem snake_movement_gameover_spec_witness :
    ((⟨[⟨10, 5⟩, ⟨9, 5⟩], ⟨8, 5⟩, true⟩ : MoveResult).gameOver = true ↔
      (outOfBounds (stepPosition .Right ⟨9, 5⟩) = true ∨
        stepPosition .Right ⟨9, 5⟩ ∈ ([⟨9, 5⟩, ⟨8, 5⟩] : List Position))) ∧
    (⟨[⟨10, 5⟩, ⟨9, 5⟩], ⟨8, 5⟩, true⟩ : MoveResult).positions =
      stepPosition .Right ⟨9, 5⟩ :: ([⟨9, 5⟩, ⟨8, 5⟩] : List Position).dropLast ∧
    ([⟨9, 5⟩, ⟨8, 5⟩] : List Position).getLast? =
      some (⟨[⟨10, 5⟩, ⟨9, 5⟩], ⟨8, 5⟩, true⟩ : MoveResult).lastTail :=
  snake_movement_gameover_spec .Right [⟨9, 5⟩, ⟨8, 5⟩] ⟨[⟨10, 5⟩, ⟨9, 5⟩], ⟨8, 5⟩, true⟩
    ⟨9, 5⟩ (by decide) rfl

/-- Auxiliary: the eating system never touches the chain, the tail
record or the game-over queue. -/
theorem snake_eating_system_preserves (w : World) :
    (snake_eating_system w).segments = w.segments ∧
    (snake_eating_system w).lastTail = w.lastTail ∧
    (snake_eating_system w).gameOverPending = w.gameOverPending := by
  unfold snake_eating_system
  cases hseg : w.segments <;> simp [hseg]

/-- Auxiliary: every `SafeStep` preserves the aliveness invariant. -/
theorem AliveInv_step {s s' : World × Bool} (h : SafeStep s s') (hs : AliveInv s) :
    AliveInv s' := by
  cases h with
  | input keys w f =>
    intro halive
    simp only [snake_movement_input_system, if_pos rfl] at halive ⊢
    exact hs halive
  | move w w' f hm =>
    simp only [snake_movement_system, if_pos rfl] at hm
    cases hsm : snake_movement w.direction w.segments with
    | none => rw [hsm] at hm; cases hm
    | some r =>
      rw [hsm] at hm
      injection hm with hm
      subst hm
      intro halive
      simp only at halive
      rw [Bool.or_eq_false_iff] at halive
      obtain ⟨hwal, hrg⟩ := halive
      obtain ⟨hne, hnd, -⟩ := hs hwal
      cases hseg : w.segments with
      | nil => rw [hseg] at hsm; cases hsm
      | cons p rest =>
        rw [hseg] at hsm
        rw [snake_movement_cons] at hsm
        injection hsm with hsm
        subst hsm
        rw [hseg] at hnd
        simp only at hrg ⊢
        rw [Bool.or_eq_false_iff] at hrg
        have hmem : stepPosition w.direction p ∉ p :: rest := by
          have := hrg.2
          simpa using this
        refine ⟨List.cons_ne_nil _ _, ?_, ?_⟩
        · rw [List.nodup_cons]
          refine ⟨fun hc => hmem (List.mem_of_mem_dropLast hc), ?_⟩
          exact hnd.sublist (List.dropLast_sublist _)
        · intro _
          refine ⟨(p :: rest).getLast (List.cons_ne_nil p rest), rfl, ?_⟩
          have hlast_mem : (p :: rest).getLast (List.cons_ne_nil p rest) ∈ p :: rest :=
            List.getLast_mem _
          rw [List.mem_cons]
          push_neg
          constructor
          · intro hc
            exact hmem (hc ▸ hlast_mem)
          · intro hc
            have hsplit := List.dropLast_append_getLast (List.cons_ne_nil p rest)
            rw [← hsplit, List.nodup_append] at hnd
            exact hnd.2.2 hc (List.mem_singleton.mpr rfl)
  | eat w f =>
    intro halive
    obtain ⟨e1, e2, e3⟩ := snake_eating_system_preserves w
    rw [e3] at halive
    obtain ⟨hne, hnd, htail⟩ := hs halive
    rw [e1, e2]
    exact ⟨hne, hnd, htail⟩
  | grow w w' hp hg =>
    unfold snake_growth at hg
    rw [if_pos hp] at hg
    cases ht : w.lastTail with
    | none => rw [ht] at hg; cases hg
    | some t =>
      rw [ht] at hg
      injection hg with hg
      subst hg
      intro halive
      simp only at halive
      obtain ⟨hne, hnd, htail⟩ := hs halive
      obtain ⟨t', ht', htout⟩ := htail rfl
      rw [ht] at ht'
      injection ht' with ht'
      subst ht'
      refine ⟨by simp, ?_, ?_⟩
      · rw [List.nodup_append]
        refine ⟨hnd, List.nodup_singleton t, ?_⟩
        intro a ha hc
        rw [List.mem_singleton] at hc
        subst hc
        exact htout ha
      · intro hc
        cases hc
  | reset w f =>
    intro halive
    unfold game_over at halive ⊢
    by_cases hp : w.gameOverPending
    · simp only [if_pos hp]
      exact ⟨by decide, by decide, fun hc => by cases hc⟩
    · simp only [if_neg hp] at halive ⊢
      obtain ⟨hne, hnd, -⟩ := hs halive
      exact ⟨hne, hnd, fun hc => by cases hc⟩
  | spawnFood p w f hin =>
    intro halive
    simp only at halive ⊢
    exact hs halive

/-- C4 (amended): in every state reachable from the initial spawn by
input frames, movement ticks, eating checks, food spawns, resets and
growth consumptions — provided each growth consumption uses a
`LastTailPosition` freshly recorded by a movement tick since the
previous growth consumption and since the last reset (at most one
growth per movement tick, none before the first tick of a round) — no
two distinct segments occupy the same position while the snake is
alive (no game-over signal pending). -/
theorem alive_segments_nodup (w : World) (f : Bool)
    (hr : SafeReachable (spawnWorld, false) (w, f))
    (halive : w.gameOverPending = false) : w.segments.Nodup := by
  suffices h : ∀ s : World × Bool, SafeReachable (spawnWorld, false) s → AliveInv s by
    exact ((h (w, f) hr) halive).2.1
  intro s hs
  have hs' : Relation.ReflTransGen SafeStep (spawnWorld, false) s := hs
  induction hs' with
  | refl => exact fun _ => ⟨by decide, by decide, fun hc => by cases hc⟩
  | tail hab hbc ih => exact AliveInv_step hbc (ih hab)

/-- Witness for C4 (amended): the initial spawn state itself is alive
and duplicate-free. -/
theorem alive_segments_nodup_witness :
    spawnWorld.gameOverPending = false ∧ spawnWorld.segments.Nodup :=
  ⟨rfl, alive_segments_nodup spawnWorld false Relation.ReflTransGen.refl rfl⟩

/-- Counterexample to C4 as stated: from the spawn state, two foods
stacked on `(3,4)` (the spawner does not avoid overlap), one movement
tick onto them, one eating check raising two growth signals, and two
growth consumptions (only one movement tick between them) drive the
game into an alive state whose chain holds `(3,2)` twice. -/
theorem reachable_duplicate_segments :
    Reachable spawnWorld ⟨[⟨3, 4⟩, ⟨3, 3⟩, ⟨3, 2⟩, ⟨3, 2⟩], .Up, some ⟨3, 2⟩, [], false, 0⟩ ∧
    (⟨[⟨3, 4⟩, ⟨3, 3⟩, ⟨3, 2⟩, ⟨3, 2⟩], .Up, some ⟨3, 2⟩, [], false, 0⟩ :
      World).gameOverPending = false ∧
    ¬ (⟨[⟨3, 4⟩, ⟨3, 3⟩, ⟨3, 2⟩, ⟨3, 2⟩], .Up, some ⟨3, 2⟩, [], false, 0⟩ :
      World).segments.Nodup := by
  refine ⟨?_, rfl, by decide⟩
  have s1 : Step spawnWorld ⟨[⟨3, 3⟩, ⟨3, 2⟩], .Up, none, [⟨3, 4⟩], false, 0⟩ :=
    Step.spawnFood ⟨3, 4⟩ spawnWorld rfl
  have s2 : Step ⟨[⟨3, 3⟩, ⟨3, 2⟩], .Up, none, [⟨3, 4⟩], false, 0⟩
      ⟨[⟨3, 3⟩, ⟨3, 2⟩], .Up, none, [⟨3, 4⟩, ⟨3, 4⟩], false, 0⟩ :=
    Step.spawnFood ⟨3, 4⟩ _ rfl
  have s3 : Step ⟨[⟨3, 3⟩, ⟨3, 2⟩], .Up, none, [⟨3, 4⟩, ⟨3, 4⟩], false, 0⟩
      ⟨[⟨3, 4⟩, ⟨3, 3⟩], .Up, some ⟨3, 2⟩, [⟨3, 4⟩, ⟨3, 4⟩], false, 0⟩ :=
    Step.move _ _ (by decide)
  have s4 : Step ⟨[⟨3, 4⟩, ⟨3, 3⟩], .Up, some ⟨3, 2⟩, [⟨3, 4⟩, ⟨3, 4⟩], false, 0⟩
      ⟨[⟨3, 4⟩, ⟨3, 3⟩], .Up, some ⟨3, 2⟩, [], false, 2⟩ :=
    Step.eat _
  have s5 : Step ⟨[⟨3, 4⟩, ⟨3, 3⟩], .Up, some ⟨3, 2⟩, [], false, 2⟩
      ⟨[⟨3, 4⟩, ⟨3, 3⟩, ⟨3, 2⟩], .Up, some ⟨3, 2⟩, [], false, 1⟩ :=
    Step.grow _ _ (by decide)
  have s6 : Step ⟨[⟨3, 4⟩, ⟨3, 3⟩, ⟨3, 2⟩], .Up, some ⟨3, 2⟩, [], false, 1⟩
      ⟨[⟨3, 4⟩, ⟨3, 3⟩, ⟨3, 2⟩, ⟨3, 2⟩], .Up, some ⟨3, 2⟩, [], false, 0⟩ :=
    Step.grow _ _ (by decide)
  exact Relation.ReflTransGen.tail
    (Relation.ReflTransGen.tail
      (Relation.ReflTransGen.tail
        (Relation.ReflTransGen.tail
          (Relation.ReflTransGen.tail
            (Relation.ReflTransGen.tail Relation.ReflTransGen.refl s1) s2) s3) s4) s5) s6

end Snake
